import Mathlib

/-!
Verification of the manifold-k8s repository's core algorithms:
resource discovery/classification/ordering, manifest cleaning,
file-path generation, Helm list parsing, and the export orchestration
helpers. Each definition is a shallow embedding of the corresponding
Go function.
-/

namespace GoStrings

/-- Splitting a character list at every character satisfying `p`,
keeping empty segments: the common core of Go's `strings.Split` and
`strings.FieldsFunc`. -/
def split (p : Char → Bool) : List Char → List (List Char)
  | [] => [[]]
  | c :: cs =>
    if p c then [] :: split p cs
    else
      match split p cs with
      | [] => [[c]]
      | s :: ss => (c :: s) :: ss

/-- Embeds Go's `strings.TrimSpace`: drop whitespace from both ends. -/
def trimSpace (cs : List Char) : List Char :=
  ((cs.dropWhile Char.isWhitespace).reverse.dropWhile Char.isWhitespace).reverse

/-- Embeds Go's `strings.Fields`: split on whitespace, dropping empty
fields. -/
def fields (cs : List Char) : List (List Char) :=
  (split (fun c => c.isWhitespace) cs).filter (fun f => !f.isEmpty)

end GoStrings

namespace K8s

/-- Embeds `ResourceInfo` from the `k8s` package: information about a
Kubernetes resource type. -/
structure ResourceInfo where
  Name : String
  Group : String
  Version : String
  Kind : String
  Namespaced : Bool
deriving DecidableEq, Repr

/-- Embeds `excludedResources`: the set of resource names to exclude
(represented as the list of keys mapped to `true` in the Go map). -/
def excludedResources : List String :=
  ["persistentvolumes", "persistentvolumeclaims"]

/-- Embeds `priorityResources`: the display order for common resources. -/
def priorityResources : List String :=
  ["deployments", "statefulsets", "daemonsets", "replicasets", "ingresses",
   "services", "configmaps", "secrets", "serviceaccounts", "pods", "jobs",
   "cronjobs", "persistentvolumeclaims"]

/-- Embeds `shouldExcludeResource`: map lookup in `excludedResources`. -/
def shouldExcludeResource (resourceName : String) : Bool :=
  excludedResources.contains resourceName

/-- Embeds `standardGroups` from `isCustomResource`: well-known Kubernetes
API groups that are not custom. -/
def standardGroups : List String :=
  ["apps", "batch", "autoscaling", "policy", "rbac.authorization.k8s.io",
   "networking.k8s.io", "storage.k8s.io", "apiextensions.k8s.io",
   "admissionregistration.k8s.io", "scheduling.k8s.io",
   "coordination.k8s.io", "node.k8s.io", "discovery.k8s.io",
   "flowcontrol.apiserver.k8s.io", "certificates.k8s.io"]

/-- Embeds `isCustomResource`: a resource is custom when its group is
non-empty and not one of the standard groups. -/
def isCustomResource (res : ResourceInfo) : Bool :=
  if res.Group == "" then false
  else if standardGroups.contains res.Group then false
  else true

/-- Embeds the `priorityMap` lookup built in `sortResourcesByPriority`:
the index of a name in `priorityResources`, if present. -/
def priorityIndex (name : String) : Option Nat :=
  priorityResources.findIdx? (· == name)

/-- Embeds the comparison closure passed to `sort.SliceStable` in
`sortResourcesByPriority`: whether `resI` must come strictly before
`resJ`. -/
def resourceLess (resI resJ : ResourceInfo) : Bool :=
  match priorityIndex resI.Name, priorityIndex resJ.Name with
  | some prioI, some prioJ => decide (prioI < prioJ)
  | some _, none => true
  | none, some _ => false
  | none, none =>
    if isCustomResource resI && !isCustomResource resJ then false
    else if !isCustomResource resI && isCustomResource resJ then true
    else decide (resI.Name < resJ.Name)

/-- Embeds `sortResourcesByPriority`: a stable sort of the resources by
the `resourceLess` comparison (Go's `sort.SliceStable` is modelled by
the stable `List.mergeSort` with the non-strict complement of the
comparison). -/
def sortResourcesByPriority (resources : List ResourceInfo) : List ResourceInfo :=
  resources.mergeSort (fun a b => !resourceLess b a)

/-- Embeds `metav1.APIResource` (the fields read by `DiscoverResources`). -/
structure APIResource where
  name : String
  kind : String
  namespaced : Bool
  verbs : List String
deriving DecidableEq, Repr

/-- Embeds `metav1.APIResourceList` (the fields read by
`DiscoverResources`). -/
structure APIResourceList where
  groupVersion : String
  apiResources : List APIResource
deriving DecidableEq, Repr

/-- Embeds `schema.ParseGroupVersion` from the apimachinery library
(an external collaborator): empty or "/" parse to the empty group and
version; no slash means version only; one slash splits group/version;
more slashes is an error (`none`). -/
def parseGroupVersion (gv : String) : Option (String × String) :=
  if gv = "" || gv = "/" then some ("", "")
  else
    match GoStrings.split (fun c => c = '/') gv.data with
    | [v] => some ("", ⟨v⟩)
    | [g, v] => some (⟨g⟩, ⟨v⟩)
    | _ => none

/-- Embeds the collection loop of `DiscoverResources`: for each API
resource list whose group-version parses, keep the resources that are
not subresources (name containing "/"), not excluded, and support both
the "list" and "get" verbs. -/
def collectResources (lists : List APIResourceList) : List ResourceInfo :=
  lists.flatMap fun apiResourceList =>
    match parseGroupVersion apiResourceList.groupVersion with
    | none => []
    | some (group, version) =>
      apiResourceList.apiResources.filterMap fun apiResource =>
        if apiResource.name.data.contains '/' then none
        else if shouldExcludeResource apiResource.name then none
        else if !(apiResource.verbs.contains "list" && apiResource.verbs.contains "get") then none
        else some ⟨apiResource.name, group, version, apiResource.kind, apiResource.namespaced⟩

/-- Embeds `DiscoverResources` (the pure part, after the discovery call
returned `lists`): collect the surviving resources and sort them by
priority. -/
def DiscoverResources (lists : List APIResourceList) : List ResourceInfo :=
  sortResourcesByPriority (collectResources lists)

/-- Classification rank used to state the ordering claims: 0 for
priority resources, 1 for standard resources, 2 for custom resources. -/
def classRank (r : ResourceInfo) : Nat :=
  if (priorityIndex r.Name).isSome then 0
  else if isCustomResource r then 2 else 1

/-- Second sort-key component: the priority-list index (0 for
non-priority entries). -/
def prioRank (r : ResourceInfo) : Nat :=
  (priorityIndex r.Name).getD 0

/-- Third sort-key component: the name, blanked for priority entries
whose relative order is decided by index alone. -/
def nameKey (r : ResourceInfo) : String :=
  if (priorityIndex r.Name).isSome then "" else r.Name

/-- Sort key realising the comparison of `sortResourcesByPriority` as a
strict lexicographic order. -/
def sortKey (r : ResourceInfo) : Nat ×ₗ Nat ×ₗ String :=
  toLex (classRank r, toLex (prioRank r, nameKey r))

end K8s

namespace Exporter

/-- A generic structured document value, embedding the
`map[string]interface` trees held by `unstructured.Unstructured`
(strings, numbers, booleans, null, lists, mappings). Mappings are
association lists of string keys. -/
inductive Value where
  | null
  | bool (b : Bool)
  | num (n : Int)
  | str (s : String)
  | arr (elems : List Value)
  | obj (fields : List (String × Value))

/-- The top-level `Object` mapping of an `unstructured.Unstructured`. -/
abbrev ObjMap := List (String × Value)

/-- Embeds Go's `delete(m, key)` on a string-keyed map: the entry for
`key` is removed (a Go map holds each key at most once; on the
association-list model every occurrence is removed). -/
def removeKey (m : List (String × Value)) (key : String) : List (String × Value) :=
  m.filter (fun entry => entry.1 != key)

/-- The six metadata deletions of `CleanManifest`, in source order. -/
def cleanMetaFields (fields : List (String × Value)) : List (String × Value) :=
  removeKey (removeKey (removeKey (removeKey (removeKey (removeKey fields
    "managedFields") "uid") "resourceVersion") "generation") "creationTimestamp") "selfLink"

/-- Embeds the metadata-cleaning block of `CleanManifest`: when the
metadata value is a mapping, the six runtime keys are deleted; any
other value is left untouched (the Go type assertion fails). -/
def cleanMetadata : Value → Value
  | .obj fields => .obj (cleanMetaFields fields)
  | v => v

/-- The in-place update of the "metadata" entry performed by
`CleanManifest` (mutating the nested map through the reference held in
the outer map is modelled as rewriting that entry's value). -/
def cleanEntry (entry : String × Value) : String × Value :=
  if entry.1 == "metadata" then (entry.1, cleanMetadata entry.2) else entry

/-- Embeds `CleanManifest`: deep-copy the object (value semantics in the
embedding make the copy implicit and leave the input unmutated), delete
the top-level "status" key, and clean the metadata mapping in place. -/
def CleanManifest (obj : ObjMap) : ObjMap :=
  (removeKey obj "status").map cleanEntry

/-- Embeds `unstructured.GetName` (apimachinery): the string at
`metadata.name`, or "" when absent or not a string. -/
def getName (obj : ObjMap) : String :=
  match List.lookup "metadata" obj with
  | some (.obj fields) =>
    match List.lookup "name" fields with
    | some (.str s) => s
    | _ => ""
  | _ => ""

/-- The metadata mapping of an object, or `[]` when the "metadata" key
is absent or its value is not a mapping. Used to state the metadata
claims. -/
def metadataFields (obj : ObjMap) : List (String × Value) :=
  match List.lookup "metadata" obj with
  | some (.obj fields) => fields
  | _ => []

/-- A concrete manifest used to instantiate the universally quantified
theorems. -/
def exampleManifest : ObjMap :=
  [("apiVersion", .str "v1"), ("kind", .str "Pod"),
   ("metadata", .obj [("name", .str "test-pod-1"), ("uid", .str "abc-123"),
     ("resourceVersion", .str "5"), ("namespace", .str "default")]),
   ("spec", .obj [("nodeName", .str "node-1")]),
   ("status", .obj [("phase", .str "Running")])]

end Exporter

namespace GoPath

/-- Embeds `strings.Split(s, "/")` on character lists. -/
def splitSlash (cs : List Char) : List (List Char) :=
  GoStrings.split (fun c => c = '/') cs

/-- Whether a path begins with the separator (Go: `os.IsPathSeparator(path[0])`). -/
def isRooted : List Char → Bool
  | [] => false
  | c :: _ => c == '/'

/-- Embeds the element loop of Go's `path.Clean`: process the segments
left to right against a stack (held in reverse); "." and empty segments
are dropped; ".." pops a poppable segment, is dropped at the root of a
rooted path, and is kept otherwise. -/
def cleanLoop (rooted : Bool) (stack : List (List Char)) : List (List Char) → List (List Char)
  | [] => stack
  | seg :: rest =>
    if seg = [] ∨ seg = ['.'] then cleanLoop rooted stack rest
    else if seg = ['.', '.'] then
      match stack with
      | [] => if rooted then cleanLoop rooted [] rest else cleanLoop rooted [['.', '.']] rest
      | top :: stackRest =>
        if top = ['.', '.'] then cleanLoop rooted (seg :: stack) rest
        else cleanLoop rooted stackRest rest
    else cleanLoop rooted (seg :: stack) rest

/-- Embeds `strings.Join(elems, "/")` on character lists. -/
def joinSegs : List (List Char) → List Char
  | [] => []
  | [s] => s
  | s :: rest => s ++ '/' :: joinSegs rest

/-- Embeds Go's `path.Clean` (which `filepath.Clean` is on Unix):
empty input yields ".", otherwise split on the separator, process the
segments, and reassemble (restoring the leading separator of a rooted
path; an empty result is "." for relative paths and "/" for rooted
ones). -/
def cleanPath (cs : List Char) : List Char :=
  if cs = [] then ['.']
  else if isRooted cs then
    (if joinSegs ((cleanLoop true [] (splitSlash cs)).reverse) = [] then ['/']
     else '/' :: joinSegs ((cleanLoop true [] (splitSlash cs)).reverse))
  else
    (if joinSegs ((cleanLoop false [] (splitSlash cs)).reverse) = [] then ['.']
     else joinSegs ((cleanLoop false [] (splitSlash cs)).reverse))

/-- Embeds Go's `filepath.Join` on Unix: drop leading empty elements,
join the rest with the separator, and clean the result; all elements
empty yields "". -/
def goJoin (elems : List (List Char)) : List Char :=
  match elems.dropWhile (fun e => e = []) with
  | [] => []
  | es => cleanPath (joinSegs es)

end GoPath

namespace Exporter

/-- Embeds `GenerateFilePath`:
`filepath.Join(baseDir, namespace, resourceType, resourceName+".yaml")`. -/
def GenerateFilePath (baseDir ns resourceType resourceName : String) : String :=
  ⟨GoPath.goJoin [baseDir.data, ns.data, resourceType.data, (resourceName ++ ".yaml").data]⟩

/-- A path component that `filepath.Join` passes through verbatim:
non-empty, separator-free, and not one of the special segments "."
and "..". -/
def PlainSeg (cs : List Char) : Prop :=
  cs ≠ [] ∧ '/' ∉ cs ∧ cs ≠ ['.'] ∧ cs ≠ ['.', '.']

/-- Embeds the `Exporter` struct (the mutex only guards the counter and
has no observable effect in the sequential flow). -/
structure Exporter where
  BaseDir : String
  ExportedCount : Nat
deriving DecidableEq, Repr

/-- Result of one `ExportResource` call: the updated exporter state, the
files successfully written, and the returned error, if any. -/
structure ExportOutcome where
  exporter : Exporter
  writes : List (String × ObjMap)
  errorMsg : Option String

/-- Embeds `Exporter.ExportResource`: clean the manifest, fail with a
missing-name error when the cleaned object has no name, otherwise
generate the file path and write; the counter is incremented only after
a successful write. The file system is modelled by the `writeSucceeds`
flag: `WriteManifest` either succeeds or returns an error. -/
def ExportResource (e : Exporter) (obj : ObjMap) (gvrResource : String)
    (ns : String) (writeSucceeds : Bool) : ExportOutcome :=
  let cleaned := CleanManifest obj
  let name := getName cleaned
  if name == "" then
    ⟨e, [], some "resource has no name"⟩
  else
    let filePath := GenerateFilePath e.BaseDir ns gvrResource name
    if writeSucceeds then
      ⟨⟨e.BaseDir, e.ExportedCount + 1⟩, [(filePath, cleaned)], none⟩
    else
      ⟨e, [], some "write failed"⟩

end Exporter

namespace Helm

/-- Embeds the `Release` struct of the `helm` package. -/
structure Release where
  Name : String
  Namespace : String
  Revision : String
  Status : String
  Chart : String
deriving DecidableEq, Repr

/-- Embeds the `strings.Fields(line)` call of
`ListReleasesWithContext`. -/
def lineFields (line : List Char) : List (List Char) :=
  GoStrings.fields line

/-- Embeds the field accesses `fields[0], fields[1], fields[2],
fields[7], fields[8]` of `ListReleasesWithContext`; `none` models the
Go runtime panic when an index is out of range. -/
def parseFields (fs : List (List Char)) : Option Release :=
  match fs[0]?, fs[1]?, fs[2]?, fs[7]?, fs[8]? with
  | some name, some ns, some revision, some status, some chart =>
      some ⟨⟨name⟩, ⟨ns⟩, ⟨revision⟩, ⟨status⟩, ⟨chart⟩⟩
  | _, _, _, _, _ => none

/-- Embeds the line loop of `ListReleasesWithContext`: skip the header
line (index 0) and blank lines, parse each remaining line with at least
5 whitespace-separated fields, and silently skip shorter lines. `none`
models an index-out-of-range panic while parsing some line. -/
def parseLines : Nat → List (List Char) → Option (List Release)
  | _, [] => some []
  | i, line :: rest =>
    if i == 0 || GoStrings.trimSpace line = [] then parseLines (i + 1) rest
    else
      let fs := lineFields line
      if fs.length ≥ 5 then
        match parseFields fs with
        | none => none
        | some r => (parseLines (i + 1) rest).map (fun rs => r :: rs)
      else parseLines (i + 1) rest

/-- Embeds the tabular-output parsing of `ListReleasesWithContext`
(applied to the captured stdout of the second `helm list` call,
split into lines by `strings.Split(output, "\n")`). -/
def ListReleasesTable (output : String) : Option (List Release) :=
  parseLines 0 (GoStrings.split (fun c => c = '\n') output.data)

end Helm

namespace Cmd

/-- One insertion step of `buildResourceMap`: `resourceMap[res.Name] = res`. -/
def resourceMapStep (m : String → Option K8s.ResourceInfo) (res : K8s.ResourceInfo) :
    String → Option K8s.ResourceInfo :=
  fun name => if name == res.Name then some res else m name

/-- Embeds `buildResourceMap`: fold the discovered resources into a map
from resource name to `ResourceInfo` (later entries overwrite earlier
ones, as in a Go map). -/
def buildResourceMap (resources : List K8s.ResourceInfo) : String → Option K8s.ResourceInfo :=
  resources.foldl resourceMapStep (fun _ => none)

/-- Embeds `selectRequestedResources`: walk the requested names in
order, collecting the found `ResourceInfo`s and the not-found names. -/
def selectRequestedResources (resourceMap : String → Option K8s.ResourceInfo) :
    List String → List K8s.ResourceInfo × List String
  | [] => ([], [])
  | resName :: rest =>
    let result := selectRequestedResources resourceMap rest
    match resourceMap resName with
    | some res => (res :: result.1, result.2)
    | none => (result.1, resName :: result.2)

/-- Embeds `shouldProcessResource`: skip cluster-scoped resources when
processing a concrete namespace. -/
def shouldProcessResource (resource : K8s.ResourceInfo) (ns : String) : Bool :=
  if !resource.Namespaced && ns != "" then false else true

/-- Embeds the resource-selection stage of `runExport` (after discovery,
before any listing): with `--all-resources` every discovered resource is
selected; otherwise the requested names are looked up, the not-found
names become warnings, and an empty selection aborts with the
"no valid resource types found" error. -/
def selectResourcesStage (discoveredResources : List K8s.ResourceInfo) (allRes : Bool)
    (requestedResources : List String) :
    Except String (List K8s.ResourceInfo × List String) :=
  if allRes then .ok (discoveredResources, [])
  else
    let result := selectRequestedResources (buildResourceMap discoveredResources)
      requestedResources
    if result.1.isEmpty then .error "no valid resource types found"
    else .ok (result.1, result.2)

/-- Embeds the pair loop of `runExport`: the (namespace, resource) pairs
for which a list call is made — exactly those not skipped by
`shouldProcessResource` (the `continue` precedes the list call). -/
def exportListCalls (namespaces : List String) (selectedResources : List K8s.ResourceInfo) :
    List (String × K8s.ResourceInfo) :=
  namespaces.flatMap fun ns =>
    selectedResources.filterMap fun resource =>
      if shouldProcessResource resource ns then some (ns, resource) else none

end Cmd

/-! ### Theorems -/

namespace K8s

theorem sortKey_lt_iff (a b : ResourceInfo) :
    sortKey a < sortKey b ↔
      classRank a < classRank b
      ∨ (classRank a = classRank b
          ∧ (prioRank a < prioRank b
              ∨ (prioRank a = prioRank b ∧ nameKey a < nameKey b))) := by
  unfold sortKey
  rw [Prod.Lex.lt_iff, Prod.Lex.lt_iff]

theorem sortKey_le_iff (a b : ResourceInfo) :
    sortKey a ≤ sortKey b ↔
      classRank a < classRank b
      ∨ (classRank a = classRank b
          ∧ (prioRank a < prioRank b
              ∨ (prioRank a = prioRank b ∧ nameKey a ≤ nameKey b))) := by
  unfold sortKey
  rw [Prod.Lex.le_iff, Prod.Lex.le_iff]

theorem resourceLess_iff (a b : ResourceInfo) :
    resourceLess a b = true ↔ sortKey a < sortKey b := by
  rw [sortKey_lt_iff]
  unfold resourceLess classRank prioRank nameKey
  cases hpa : priorityIndex a.Name <;> cases hpb : priorityIndex b.Name <;>
    cases hca : isCustomResource a <;> cases hcb : isCustomResource b <;>
      simp [String.lt_irrefl]

theorem resourceLe_trans (a b c : ResourceInfo)
    (hab : (!resourceLess b a) = true) (hbc : (!resourceLess c b) = true) :
    (!resourceLess c a) = true := by
  have h1 : sortKey a ≤ sortKey b :=
    not_lt.mp fun h => by simp [(resourceLess_iff b a).mpr h] at hab
  have h2 : sortKey b ≤ sortKey c :=
    not_lt.mp fun h => by simp [(resourceLess_iff c b).mpr h] at hbc
  have h3 : ¬ sortKey c < sortKey a := not_lt.mpr (le_trans h1 h2)
  cases h : resourceLess c a
  · rfl
  · exact absurd ((resourceLess_iff c a).mp h) h3

theorem resourceLe_total (a b : ResourceInfo) :
    ((!resourceLess b a) || (!resourceLess a b)) = true := by
  cases h1 : resourceLess b a <;> cases h2 : resourceLess a b <;> simp
  exact absurd ((resourceLess_iff a b).mp h2)
    (lt_asymm ((resourceLess_iff b a).mp h1))

theorem priorityIndex_eq_none_of_rank (r : ResourceInfo) (h : classRank r ≠ 0) :
    priorityIndex r.Name = none := by
  unfold classRank at h
  cases hp : priorityIndex r.Name
  · rfl
  · simp [hp] at h

theorem resourceLe_imp (a b : ResourceInfo) (h : (!resourceLess b a) = true) :
    classRank a ≤ classRank b
    ∧ (classRank a = 0 → classRank b = 0 →
        (priorityIndex a.Name).getD 0 ≤ (priorityIndex b.Name).getD 0)
    ∧ (classRank a = 1 → classRank b = 1 → a.Name ≤ b.Name)
    ∧ (classRank a = 2 → classRank b = 2 → a.Name ≤ b.Name) := by
  have hk : sortKey a ≤ sortKey b :=
    not_lt.mp fun hlt => by simp [(resourceLess_iff b a).mpr hlt] at h
  rw [sortKey_le_iff] at hk
  refine ⟨?_, ?_, ?_, ?_⟩
  · rcases hk with hk | ⟨hk, -⟩
    · exact le_of_lt hk
    · exact le_of_eq hk
  · intro h0a h0b
    rcases hk with hk | ⟨-, hk⟩
    · rw [h0a, h0b] at hk
      omega
    · unfold prioRank at hk
      rcases hk with hk | ⟨hk, -⟩
      · exact le_of_lt hk
      · exact le_of_eq hk
  · intro h1a h1b
    have hna : priorityIndex a.Name = none := priorityIndex_eq_none_of_rank a (by omega)
    have hnb : priorityIndex b.Name = none := priorityIndex_eq_none_of_rank b (by omega)
    rcases hk with hk | ⟨-, hk⟩
    · rw [h1a, h1b] at hk
      omega
    · rcases hk with hk | ⟨-, hk⟩
      · unfold prioRank at hk
        rw [hna, hnb] at hk
        simp at hk
      · unfold nameKey at hk
        rw [hna, hnb] at hk
        simpa using hk
  · intro h2a h2b
    have hna : priorityIndex a.Name = none := priorityIndex_eq_none_of_rank a (by omega)
    have hnb : priorityIndex b.Name = none := priorityIndex_eq_none_of_rank b (by omega)
    rcases hk with hk | ⟨-, hk⟩
    · rw [h2a, h2b] at hk
      omega
    · rcases hk with hk | ⟨-, hk⟩
      · unfold prioRank at hk
        rw [hna, hnb] at hk
        simp at hk
      · unfold nameKey at hk
        rw [hna, hnb] at hk
        simpa using hk

theorem resourceLess_eq_false_of_eq (a b : ResourceInfo)
    (h1 : classRank a = classRank b) (h2 : a.Name = b.Name) :
    resourceLess a b = false := by
  have hkey : sortKey a = sortKey b := by
    unfold sortKey classRank prioRank nameKey
    unfold classRank at h1
    rw [h2] at h1 ⊢
    rw [h1]
  cases h : resourceLess a b
  · rfl
  · exact absurd ((resourceLess_iff a b).mp h) (by rw [hkey]; exact lt_irrefl _)

end K8s

/-- C1: `sortResourcesByPriority` orders any list of resources so that
priority entries precede standard entries, standard entries precede
custom entries, priority entries are ordered by their index in the
fixed priority list, standard and custom entries are each ordered
alphabetically by name, the output is a permutation of the input, and
the sort is stable for entries with equal classification and name. -/
theorem sortResourcesByPriority_orders_and_stable (xs : List K8s.ResourceInfo) :
    (K8s.sortResourcesByPriority xs).Perm xs
    ∧ (K8s.sortResourcesByPriority xs).Pairwise (fun a b =>
        K8s.classRank a ≤ K8s.classRank b
        ∧ (K8s.classRank a = 0 → K8s.classRank b = 0 →
            (K8s.priorityIndex a.Name).getD 0 ≤ (K8s.priorityIndex b.Name).getD 0)
        ∧ (K8s.classRank a = 1 → K8s.classRank b = 1 → a.Name ≤ b.Name)
        ∧ (K8s.classRank a = 2 → K8s.classRank b = 2 → a.Name ≤ b.Name))
    ∧ ∀ (c : Nat) (n : String),
        (K8s.sortResourcesByPriority xs).filter
            (fun r => K8s.classRank r == c && r.Name == n)
          = xs.filter (fun r => K8s.classRank r == c && r.Name == n) := by
  refine ⟨List.mergeSort_perm xs _, ?_, ?_⟩
  · exact (List.sorted_mergeSort K8s.resourceLe_trans K8s.resourceLe_total xs).imp
      (fun h => K8s.resourceLe_imp _ _ h)
  · intro c n
    set p : K8s.ResourceInfo → Bool := fun r => K8s.classRank r == c && r.Name == n with hp
    have hmem : ∀ r, p r = true → K8s.classRank r = c ∧ r.Name = n := by
      intro r hr
      rw [hp] at hr
      simpa using hr
    have hpair : (xs.filter p).Pairwise (fun a b => (!K8s.resourceLess b a) = true) := by
      apply List.pairwise_of_forall_mem_list
      intro a ha b hb
      obtain ⟨hca, hna⟩ := hmem a (List.of_mem_filter ha)
      obtain ⟨hcb, hnb⟩ := hmem b (List.of_mem_filter hb)
      have hzero : K8s.resourceLess b a = false :=
        K8s.resourceLess_eq_false_of_eq b a (by rw [hca, hcb]) (by rw [hna, hnb])
      simp [hzero]
    have hsub : List.Sublist (xs.filter p) (K8s.sortResourcesByPriority xs) :=
      List.sublist_mergeSort K8s.resourceLe_trans K8s.resourceLe_total hpair
        (List.filter_sublist xs)
    have hsub2 : List.Sublist (xs.filter p) ((K8s.sortResourcesByPriority xs).filter p) := by
      have hf := hsub.filter p
      simpa using hf
    have hlen : ((K8s.sortResourcesByPriority xs).filter p).length = (xs.filter p).length :=
      ((List.mergeSort_perm xs _).filter p).length_eq
    exact (hsub2.eq_of_length hlen.symm).symm

/-- C2: every entry returned by `DiscoverResources` is neither
"persistentvolumes" nor "persistentvolumeclaims", has no "/" in its
name, and stems from an input API resource supporting both the "list"
and "get" verbs. -/
theorem DiscoverResources_filters (lists : List K8s.APIResourceList)
    (r : K8s.ResourceInfo) (hr : r ∈ K8s.DiscoverResources lists) :
    r.Name ≠ "persistentvolumes" ∧ r.Name ≠ "persistentvolumeclaims"
    ∧ r.Name.data.contains '/' = false
    ∧ ∃ l ∈ lists, ∃ a ∈ l.apiResources,
        a.name = r.Name ∧ "list" ∈ a.verbs ∧ "get" ∈ a.verbs := by
  obtain ⟨rn, rg, rv, rk, rns⟩ := r
  have hr' : (⟨rn, rg, rv, rk, rns⟩ : K8s.ResourceInfo) ∈ K8s.collectResources lists := by
    unfold K8s.DiscoverResources K8s.sortResourcesByPriority at hr
    rwa [List.mem_mergeSort] at hr
  unfold K8s.collectResources at hr'
  rw [List.mem_flatMap] at hr'
  obtain ⟨l, hl, hrl⟩ := hr'
  rcases hgv : K8s.parseGroupVersion l.groupVersion with _ | ⟨g, v⟩
  · rw [hgv] at hrl
    simp at hrl
  · rw [hgv] at hrl
    rw [List.mem_filterMap] at hrl
    obtain ⟨a, ha, hfa⟩ := hrl
    by_cases h1 : a.name.data.contains '/' = true
    · rw [if_pos h1] at hfa
      exact absurd hfa (by simp)
    rw [if_neg h1] at hfa
    by_cases h2 : K8s.shouldExcludeResource a.name = true
    · rw [if_pos h2] at hfa
      exact absurd hfa (by simp)
    rw [if_neg h2] at hfa
    cases h3 : (a.verbs.contains "list" && a.verbs.contains "get") with
    | false =>
      rw [h3] at hfa
      simp at hfa
    | true =>
      rw [h3] at hfa
      simp only [Bool.not_true, Bool.false_eq_true, if_false] at hfa
      rw [Option.some_inj, K8s.ResourceInfo.mk.injEq] at hfa
      obtain ⟨e1, e2, e3, e4, e5⟩ := hfa
      subst e1
      unfold K8s.shouldExcludeResource K8s.excludedResources at h2
      simp only [List.contains_cons, List.contains_nil, Bool.or_false,
        Bool.or_eq_true, beq_iff_eq] at h2
      push_neg at h2
      rw [Bool.and_eq_true] at h3
      refine ⟨h2.1, h2.2, by simpa using h1, l, hl, a, ha, rfl, ?_⟩
      constructor
      · simpa using h3.1
      · simpa using h3.2

/-- Witness for C2 at a concrete discovery input. -/
theorem DiscoverResources_filters_witness :
    (⟨"pods", "", "v1", "Pod", true⟩ : K8s.ResourceInfo).Name ≠ "persistentvolumes"
    ∧ (⟨"pods", "", "v1", "Pod", true⟩ : K8s.ResourceInfo).Name
        ≠ "persistentvolumeclaims" := by
  have hr : (⟨"pods", "", "v1", "Pod", true⟩ : K8s.ResourceInfo)
      ∈ K8s.DiscoverResources [⟨"v1", [⟨"pods", "Pod", true, ["list", "get"]⟩]⟩] := by
    unfold K8s.DiscoverResources
    have hc : K8s.collectResources [⟨"v1", [⟨"pods", "Pod", true, ["list", "get"]⟩]⟩]
        = [⟨"pods", "", "v1", "Pod", true⟩] := rfl
    rw [hc]
    unfold K8s.sortResourcesByPriority
    rw [List.mergeSort_singleton]
    exact List.mem_singleton_self _
  have h := DiscoverResources_filters [⟨"v1", [⟨"pods", "Pod", true, ["list", "get"]⟩]⟩]
    ⟨"pods", "", "v1", "Pod", true⟩ hr
  exact ⟨h.1, h.2.1⟩

namespace Exporter

theorem lookup_cons_ne (t : ObjMap) (k a : String) (v : Value) (h : k ≠ a) :
    List.lookup k ((a, v) :: t) = List.lookup k t := by
  rw [List.lookup_cons, show (k == a) = false by simp [h]]

theorem lookup_removeKey_self (m : ObjMap) (k : String) :
    List.lookup k (removeKey m k) = none := by
  induction m with
  | nil => rfl
  | cons e t ih =>
    obtain ⟨ek, ev⟩ := e
    unfold removeKey at ih ⊢
    rw [List.filter_cons]
    by_cases h : ek = k
    · rw [if_neg (by simp [h])]
      exact ih
    · rw [if_pos (by simp [h]), lookup_cons_ne _ _ _ _ (Ne.symm h)]
      exact ih

theorem lookup_removeKey_ne (m : ObjMap) (k j : String) (h : k ≠ j) :
    List.lookup k (removeKey m j) = List.lookup k m := by
  induction m with
  | nil => rfl
  | cons e t ih =>
    obtain ⟨ek, ev⟩ := e
    unfold removeKey at ih ⊢
    rw [List.filter_cons]
    by_cases he : ek = j
    · rw [if_neg (by simp [he]), ih, lookup_cons_ne _ _ _ _ (by rw [he]; exact h)]
    · rw [if_pos (by simp [he])]
      by_cases hk : k = ek
      · subst hk
        rw [List.lookup_cons_self, List.lookup_cons_self]
      · rw [lookup_cons_ne _ _ _ _ hk, lookup_cons_ne _ _ _ _ hk]
        exact ih

theorem lookup_removeKey_of_none (m : ObjMap) (k j : String)
    (h : List.lookup j m = none) : List.lookup j (removeKey m k) = none := by
  by_cases hjk : j = k
  · subst hjk
    exact lookup_removeKey_self m j
  · rw [lookup_removeKey_ne m j k hjk]
    exact h

theorem cleanEntry_fst (e : String × Value) : (cleanEntry e).1 = e.1 := by
  unfold cleanEntry
  split <;> rfl

theorem lookup_map_cleanEntry_ne (m : ObjMap) (k : String) (h : k ≠ "metadata") :
    List.lookup k (m.map cleanEntry) = List.lookup k m := by
  induction m with
  | nil => rfl
  | cons e t ih =>
    obtain ⟨ek, ev⟩ := e
    rw [List.map_cons]
    by_cases he : ek = "metadata"
    · rw [show cleanEntry (ek, ev) = (ek, cleanMetadata ev) by simp [cleanEntry, he]]
      rw [lookup_cons_ne _ _ _ _ (by rw [he]; exact h),
        lookup_cons_ne _ _ _ _ (by rw [he]; exact h)]
      exact ih
    · rw [show cleanEntry (ek, ev) = (ek, ev) by simp [cleanEntry, he]]
      by_cases hk : k = ek
      · subst hk
        rw [List.lookup_cons_self, List.lookup_cons_self]
      · rw [lookup_cons_ne _ _ _ _ hk, lookup_cons_ne _ _ _ _ hk]
        exact ih

theorem lookup_map_cleanEntry_metadata (m : ObjMap) :
    List.lookup "metadata" (m.map cleanEntry)
      = (List.lookup "metadata" m).map cleanMetadata := by
  induction m with
  | nil => rfl
  | cons e t ih =>
    obtain ⟨ek, ev⟩ := e
    rw [List.map_cons]
    by_cases he : ek = "metadata"
    · rw [show cleanEntry (ek, ev) = (ek, cleanMetadata ev) by simp [cleanEntry, he], he]
      rw [List.lookup_cons_self, List.lookup_cons_self]
      rfl
    · rw [show cleanEntry (ek, ev) = (ek, ev) by simp [cleanEntry, he]]
      rw [lookup_cons_ne _ _ _ _ (fun hh => he hh.symm),
        lookup_cons_ne _ _ _ _ (fun hh => he hh.symm)]
      exact ih

theorem lookup_CleanManifest_status (m : ObjMap) :
    List.lookup "status" (CleanManifest m) = none := by
  unfold CleanManifest
  rw [lookup_map_cleanEntry_ne _ _ (by decide)]
  exact lookup_removeKey_self m "status"

theorem lookup_CleanManifest_ne (m : ObjMap) (k : String)
    (h1 : k ≠ "status") (h2 : k ≠ "metadata") :
    List.lookup k (CleanManifest m) = List.lookup k m := by
  unfold CleanManifest
  rw [lookup_map_cleanEntry_ne _ _ h2, lookup_removeKey_ne _ _ _ h1]

theorem lookup_CleanManifest_metadata (m : ObjMap) :
    List.lookup "metadata" (CleanManifest m)
      = (List.lookup "metadata" m).map cleanMetadata := by
  unfold CleanManifest
  rw [lookup_map_cleanEntry_metadata, lookup_removeKey_ne _ _ _ (by decide)]

theorem lookup_cleanMetaFields_removed (fields : List (String × Value)) (j : String)
    (hj : j ∈ ["managedFields", "uid", "resourceVersion", "generation",
      "creationTimestamp", "selfLink"]) :
    List.lookup j (cleanMetaFields fields) = none := by
  unfold cleanMetaFields
  simp only [List.mem_cons, List.not_mem_nil, or_false] at hj
  rcases hj with h | h | h | h | h | h <;> subst h
  · exact lookup_removeKey_of_none _ _ _ (lookup_removeKey_of_none _ _ _
      (lookup_removeKey_of_none _ _ _ (lookup_removeKey_of_none _ _ _
        (lookup_removeKey_of_none _ _ _ (lookup_removeKey_self _ _)))))
  · exact lookup_removeKey_of_none _ _ _ (lookup_removeKey_of_none _ _ _
      (lookup_removeKey_of_none _ _ _ (lookup_removeKey_of_none _ _ _
        (lookup_removeKey_self _ _))))
  · exact lookup_removeKey_of_none _ _ _ (lookup_removeKey_of_none _ _ _
      (lookup_removeKey_of_none _ _ _ (lookup_removeKey_self _ _)))
  · exact lookup_removeKey_of_none _ _ _ (lookup_removeKey_of_none _ _ _
      (lookup_removeKey_self _ _))
  · exact lookup_removeKey_of_none _ _ _ (lookup_removeKey_self _ _)
  · exact lookup_removeKey_self _ _

theorem lookup_cleanMetaFields_ne (fields : List (String × Value)) (j : String)
    (hj : j ∉ ["managedFields", "uid", "resourceVersion", "generation",
      "creationTimestamp", "selfLink"]) :
    List.lookup j (cleanMetaFields fields) = List.lookup j fields := by
  simp only [List.mem_cons, List.not_mem_nil, or_false] at hj
  push_neg at hj
  obtain ⟨n1, n2, n3, n4, n5, n6⟩ := hj
  unfold cleanMetaFields
  rw [lookup_removeKey_ne _ _ _ n6, lookup_removeKey_ne _ _ _ n5,
    lookup_removeKey_ne _ _ _ n4, lookup_removeKey_ne _ _ _ n3,
    lookup_removeKey_ne _ _ _ n2, lookup_removeKey_ne _ _ _ n1]

theorem removeKey_idem (m : ObjMap) (k : String) :
    removeKey (removeKey m k) k = removeKey m k := by
  unfold removeKey
  rw [List.filter_filter]
  apply List.filter_congr
  intro a _
  cases h : (a.1 != k) <;> simp [h]

theorem removeKey_map_cleanEntry (m : ObjMap) (k : String) :
    removeKey (m.map cleanEntry) k = (removeKey m k).map cleanEntry := by
  unfold removeKey
  rw [List.filter_map]
  congr 1
  apply List.filter_congr
  intro a _
  rw [Function.comp_apply, cleanEntry_fst]

theorem cleanMetaFields_idem (fields : List (String × Value)) :
    cleanMetaFields (cleanMetaFields fields) = cleanMetaFields fields := by
  unfold cleanMetaFields removeKey
  simp only [List.filter_filter]
  apply List.filter_congr
  intro a _
  cases h1 : (a.1 != "managedFields") <;> cases h2 : (a.1 != "uid") <;>
    cases h3 : (a.1 != "resourceVersion") <;> cases h4 : (a.1 != "generation") <;>
      cases h5 : (a.1 != "creationTimestamp") <;> cases h6 : (a.1 != "selfLink") <;>
        simp [h1, h2, h3, h4, h5, h6]

theorem cleanMetadata_idem (v : Value) :
    cleanMetadata (cleanMetadata v) = cleanMetadata v := by
  cases v <;> simp [cleanMetadata]
  exact cleanMetaFields_idem _

theorem cleanEntry_idem (e : String × Value) :
    cleanEntry (cleanEntry e) = cleanEntry e := by
  obtain ⟨ek, ev⟩ := e
  by_cases h : ek = "metadata"
  · simp [cleanEntry, h, cleanMetadata_idem]
  · simp [cleanEntry, h]

theorem CleanManifest_idem (m : ObjMap) :
    CleanManifest (CleanManifest m) = CleanManifest m := by
  unfold CleanManifest
  rw [removeKey_map_cleanEntry, removeKey_idem, List.map_map]
  apply List.map_congr_left
  intro a _
  rw [Function.comp_apply, cleanEntry_idem]

end Exporter

/-- C3: `CleanManifest` is idempotent, its result has no top-level
"status" key, and the metadata mapping of its result (when metadata is
a mapping) has none of the six runtime keys. -/
theorem CleanManifest_idem_and_strips (m : Exporter.ObjMap) :
    Exporter.CleanManifest (Exporter.CleanManifest m) = Exporter.CleanManifest m
    ∧ List.lookup "status" (Exporter.CleanManifest m) = none
    ∧ ∀ j ∈ ["managedFields", "uid", "resourceVersion", "generation",
        "creationTimestamp", "selfLink"],
        List.lookup j (Exporter.metadataFields (Exporter.CleanManifest m)) = none := by
  refine ⟨Exporter.CleanManifest_idem m, Exporter.lookup_CleanManifest_status m, ?_⟩
  intro j hj
  unfold Exporter.metadataFields
  rw [Exporter.lookup_CleanManifest_metadata]
  cases hm : List.lookup "metadata" m with
  | none => rfl
  | some v =>
    cases v
    case obj fields => exact Exporter.lookup_cleanMetaFields_removed fields j hj
    all_goals rfl

/-- Witness for C3 at a concrete manifest. -/
theorem CleanManifest_idem_and_strips_witness :
    List.lookup "uid"
        (Exporter.metadataFields (Exporter.CleanManifest Exporter.exampleManifest))
      = none :=
  (CleanManifest_idem_and_strips Exporter.exampleManifest).2.2 "uid" (by decide)

/-- C9: `CleanManifest` is pure (its input is a value, never mutated)
and preserves every part of the document other than the top-level
"status" key and the six metadata keys: lookups of all other top-level
keys are unchanged, the metadata value is rewritten only by deleting
the six keys, and lookups of all other metadata keys (with their entire
nested payloads) are unchanged. -/
theorem CleanManifest_preserves (m : Exporter.ObjMap) :
    (∀ k, k ≠ "status" → k ≠ "metadata" →
      List.lookup k (Exporter.CleanManifest m) = List.lookup k m)
    ∧ List.lookup "metadata" (Exporter.CleanManifest m)
        = (List.lookup "metadata" m).map Exporter.cleanMetadata
    ∧ ∀ j, j ∉ ["managedFields", "uid", "resourceVersion", "generation",
        "creationTimestamp", "selfLink"] →
        List.lookup j (Exporter.metadataFields (Exporter.CleanManifest m))
          = List.lookup j (Exporter.metadataFields m) := by
  refine ⟨fun k h1 h2 => Exporter.lookup_CleanManifest_ne m k h1 h2,
    Exporter.lookup_CleanManifest_metadata m, ?_⟩
  intro j hj
  unfold Exporter.metadataFields
  rw [Exporter.lookup_CleanManifest_metadata]
  cases hm : List.lookup "metadata" m with
  | none => rfl
  | some v =>
    cases v
    case obj fields =>
      show List.lookup j (Exporter.cleanMetaFields fields) = List.lookup j fields
      exact Exporter.lookup_cleanMetaFields_ne fields j hj
    all_goals rfl

/-- Witness for C9 at a concrete manifest. -/
theorem CleanManifest_preserves_witness :
    List.lookup "spec" (Exporter.CleanManifest Exporter.exampleManifest)
      = List.lookup "spec" Exporter.exampleManifest
    ∧ List.lookup "name"
        (Exporter.metadataFields (Exporter.CleanManifest Exporter.exampleManifest))
      = List.lookup "name" (Exporter.metadataFields Exporter.exampleManifest) :=
  ⟨(CleanManifest_preserves Exporter.exampleManifest).1 "spec" (by decide) (by decide),
   (CleanManifest_preserves Exporter.exampleManifest).2.2 "name" (by decide)⟩

/-- C5 (code evaluation): the first conjunct checks a real Helm table
line (10 fields, the UPDATED column splitting into four) parses into
name/namespace/revision/status/chart from positions 0, 1, 2, 7, 8;
the second shows that a non-header line with exactly 5 fields is
admitted by the `len(fields) >= 5` guard yet the accesses `fields[7]`
and `fields[8]` go out of range (`none` models the Go panic). -/
theorem ListReleasesTable_guard_gap :
    Helm.ListReleasesTable
        "NAME NAMESPACE REVISION UPDATED STATUS CHART APP\nmyrel default 1 2024-01-01 12:00:00.000 +0000 UTC deployed nginx-1.0.0 1.0"
      = some [⟨"myrel", "default", "1", "deployed", "nginx-1.0.0"⟩]
    ∧ Helm.ListReleasesTable "NAME NAMESPACE REVISION UPDATED STATUS\na b c d e"
      = none := by
  constructor
  · rfl
  · rfl

/-- C6: `shouldProcessResource` returns false exactly for a
cluster-scoped resource paired with a non-empty namespace, and in the
`runExport` pair loop no list call is ever made for a cluster-scoped
resource under a concrete namespace. -/
theorem shouldProcessResource_spec :
    (∀ (r : K8s.ResourceInfo) (ns : String),
      Cmd.shouldProcessResource r ns = false ↔ (r.Namespaced = false ∧ ns ≠ ""))
    ∧ ∀ (nss : List String) (rs : List K8s.ResourceInfo) (ns : String)
        (r : K8s.ResourceInfo),
        (ns, r) ∈ Cmd.exportListCalls nss rs → r.Namespaced = false → ns = "" := by
  constructor
  · intro r ns
    unfold Cmd.shouldProcessResource
    by_cases h1 : r.Namespaced <;> by_cases h2 : ns = "" <;> simp [h1, h2]
  · intro nss rs ns r hmem hns
    unfold Cmd.exportListCalls at hmem
    rw [List.mem_flatMap] at hmem
    obtain ⟨ns', hns', hmem⟩ := hmem
    rw [List.mem_filterMap] at hmem
    obtain ⟨r', hr', hif⟩ := hmem
    by_cases hp : Cmd.shouldProcessResource r' ns' = true
    · rw [if_pos hp, Option.some_inj, Prod.mk.injEq] at hif
      obtain ⟨he1, he2⟩ := hif
      rw [← he1]
      by_cases hcase : ns' = ""
      · exact hcase
      · unfold Cmd.shouldProcessResource at hp
        rw [if_pos (by simp [he2, hns, hcase])] at hp
        exact absurd hp (by simp)
    · rw [if_neg hp] at hif
      exact absurd hif (by simp)

/-- Witness for C6: a cluster-scoped resource under a concrete
namespace is not processed. -/
theorem shouldProcessResource_spec_witness :
    Cmd.shouldProcessResource ⟨"nodes", "", "v1", "Node", false⟩ "default" = false :=
  (shouldProcessResource_spec.1 ⟨"nodes", "", "v1", "Node", false⟩ "default").mpr
    ⟨rfl, by decide⟩

theorem selectRequestedResources_eq (m : String → Option K8s.ResourceInfo)
    (requested : List String) :
    Cmd.selectRequestedResources m requested
      = (requested.filterMap m, requested.filter (fun n => (m n).isNone)) := by
  induction requested with
  | nil => rfl
  | cons resName rest ih =>
    unfold Cmd.selectRequestedResources
    rw [ih]
    cases h : m resName <;> simp [List.filterMap_cons, List.filter_cons, h]

/-- C7: `selectRequestedResources` returns exactly the requested names
found in the map, in requested order, and the remaining names as
not-found; the selection stage of `runExport` (which runs before any
listing) errors with "no valid resource types found" exactly when no
requested name was found, and otherwise proceeds with the found
resources plus one warning entry per missing name. -/
theorem selectRequestedResources_spec (discovered : List K8s.ResourceInfo)
    (requested : List String) :
    Cmd.selectRequestedResources (Cmd.buildResourceMap discovered) requested
      = (requested.filterMap (Cmd.buildResourceMap discovered),
          requested.filter (fun n => (Cmd.buildResourceMap discovered n).isNone))
    ∧ Cmd.selectResourcesStage discovered false requested
        = (if requested.filterMap (Cmd.buildResourceMap discovered) = []
            then Except.error "no valid resource types found"
            else Except.ok (requested.filterMap (Cmd.buildResourceMap discovered),
              requested.filter (fun n => (Cmd.buildResourceMap discovered n).isNone))) := by
  refine ⟨selectRequestedResources_eq _ _, ?_⟩
  by_cases h : requested.filterMap (Cmd.buildResourceMap discovered) = [] <;>
    simp [Cmd.selectResourcesStage, selectRequestedResources_eq, h]

theorem buildResourceMapAux (rs : List K8s.ResourceInfo)
    (init : String → Option K8s.ResourceInfo) (name : String) :
    (rs.foldl Cmd.resourceMapStep init) name
      = (match rs.reverse.find? (fun r => r.Name == name) with
          | some r => some r
          | none => init name) := by
  induction rs generalizing init with
  | nil => rfl
  | cons res rest ih =>
    rw [List.foldl_cons, ih, List.reverse_cons, List.find?_append]
    cases hf : rest.reverse.find? (fun r => r.Name == name) with
    | some r => simp
    | none =>
      simp only [Option.none_orElse]
      unfold Cmd.resourceMapStep
      by_cases h : name = res.Name
      · simp [List.find?_cons, h]
      · have hb : (res.Name == name) = false := by
          simp only [beq_eq_false_iff_ne, ne_eq]
          exact fun hh => h hh.symm
        simp [List.find?_cons, h, hb]

theorem buildResourceMap_name (resources : List K8s.ResourceInfo) (s : String)
    (r : K8s.ResourceInfo) (h : Cmd.buildResourceMap resources s = some r) :
    r.Name = s := by
  unfold Cmd.buildResourceMap at h
  rw [buildResourceMapAux] at h
  cases hf : resources.reverse.find? (fun x => x.Name == s) with
  | none =>
    rw [hf] at h
    exact absurd h (by simp)
  | some x =>
    rw [hf, Option.some_inj] at h
    subst h
    simpa using List.find?_some hf

/-- C10 (implicit): `buildResourceMap` keeps, for each name, exactly
the entry appearing last in discovery order (later duplicates shadow
earlier ones, with no warning); every map hit carries the looked-up
name; and `selectRequestedResources` therefore returns at most one
descriptor per requested name occurrence. -/
theorem buildResourceMap_last_wins (resources : List K8s.ResourceInfo) (name : String) :
    Cmd.buildResourceMap resources name
      = resources.reverse.find? (fun r => r.Name == name)
    ∧ (∀ r, Cmd.buildResourceMap resources name = some r → r.Name = name)
    ∧ ∀ requested : List String,
        ((Cmd.selectRequestedResources (Cmd.buildResourceMap resources) requested).1.filter
            (fun r => r.Name == name)).length
          ≤ (requested.filter (fun s => s == name)).length := by
  refine ⟨?_, fun r hr => buildResourceMap_name resources name r hr, ?_⟩
  · unfold Cmd.buildResourceMap
    rw [buildResourceMapAux]
    cases hf : resources.reverse.find? (fun r => r.Name == name) <;> simp
  · intro requested
    rw [selectRequestedResources_eq]
    show ((requested.filterMap (Cmd.buildResourceMap resources)).filter
        (fun r => r.Name == name)).length
      ≤ (requested.filter (fun s => s == name)).length
    induction requested with
    | nil => simp
    | cons s rest ih =>
      cases hm : Cmd.buildResourceMap resources s with
      | none =>
        simp only [List.filterMap_cons, hm, List.filter_cons]
        split
        · exact le_trans ih (Nat.le_succ _)
        · exact ih
      | some r =>
        have hrs : r.Name = s := buildResourceMap_name resources s r hm
        simp only [List.filterMap_cons, hm, List.filter_cons]
        by_cases hn : s = name
        · have hbs : (s == name) = true := by simp [hn]
          have hbr : (r.Name == name) = true := by simp [hrs, hn]
          simp [hbs, hbr]
          omega
        · have hbs : (s == name) = false := by simp [hn]
          have hbr : (r.Name == name) = false := by simp [hrs, hn]
          simp [hbs, hbr]
          exact ih

/-- Witness for C10: with two resources of the same name from different
groups, the later one shadows the earlier one. -/
theorem buildResourceMap_last_wins_witness :
    Cmd.buildResourceMap
        [⟨"widgets", "group1", "v1", "Widget", true⟩,
         ⟨"widgets", "group2", "v1", "Widget", true⟩] "widgets"
      = some ⟨"widgets", "group2", "v1", "Widget", true⟩ := by
  rw [(buildResourceMap_last_wins
    [⟨"widgets", "group1", "v1", "Widget", true⟩,
     ⟨"widgets", "group2", "v1", "Widget", true⟩] "widgets").1]
  rfl

/-- C8: exporting an object whose cleaned form has an empty name fails
with the missing-name error, writes nothing, and leaves the counter
unchanged; the counter is incremented exactly once and only on a
successful write, and a failed write leaves the state unchanged. -/
theorem ExportResource_spec (e : Exporter.Exporter) (obj : Exporter.ObjMap)
    (gvrResource ns : String) (w : Bool) :
    (Exporter.getName (Exporter.CleanManifest obj) = "" →
      Exporter.ExportResource e obj gvrResource ns w
        = ⟨e, [], some "resource has no name"⟩)
    ∧ (Exporter.ExportResource e obj gvrResource ns w).exporter.ExportedCount
        = (if Exporter.getName (Exporter.CleanManifest obj) ≠ "" ∧ w = true
            then e.ExportedCount + 1 else e.ExportedCount)
    ∧ (w = false → (Exporter.ExportResource e obj gvrResource ns w).writes = []
        ∧ (Exporter.ExportResource e obj gvrResource ns w).exporter = e) := by
  unfold Exporter.ExportResource
  by_cases h : Exporter.getName (Exporter.CleanManifest obj) = ""
  · simp [h]
  · cases w <;> simp [h]

/-- Witness for C8: an object with no name leaves the counter at 0; a
successful write increments it to 1. -/
theorem ExportResource_spec_witness :
    (Exporter.ExportResource ⟨"out", 0⟩ [("metadata", Exporter.Value.obj [])]
        "pods" "default" true).exporter.ExportedCount = 0
    ∧ (Exporter.ExportResource ⟨"out", 0⟩ Exporter.exampleManifest
        "pods" "default" true).exporter.ExportedCount = 1 := by
  constructor
  · rw [(ExportResource_spec ⟨"out", 0⟩ [("metadata", Exporter.Value.obj [])]
      "pods" "default" true).2.1]
    rfl
  · rw [(ExportResource_spec ⟨"out", 0⟩ Exporter.exampleManifest
      "pods" "default" true).2.1]
    rfl

namespace GoPath

theorem splitSlash_single (a : List Char) (h : '/' ∉ a) :
    splitSlash a = [a] := by
  induction a with
  | nil => rfl
  | cons c cs ih =>
    have hc : ¬ (c = '/') := fun hh => h (by simp [hh])
    unfold splitSlash GoStrings.split
    rw [if_neg (by simpa using hc)]
    have ihc : splitSlash cs = [cs] := ih (fun hx => h (List.mem_cons_of_mem c hx))
    unfold splitSlash at ihc
    rw [ihc]

theorem splitSlash_append (a r : List Char) (h : '/' ∉ a) :
    splitSlash (a ++ '/' :: r) = a :: splitSlash r := by
  induction a with
  | nil =>
    show GoStrings.split (fun c => c = '/') ('/' :: r) = [] :: splitSlash r
    unfold GoStrings.split
    rw [if_pos (by simp)]
    rfl
  | cons c cs ih =>
    have hc : ¬ (c = '/') := fun hh => h (by simp [hh])
    show GoStrings.split (fun c => c = '/') (c :: (cs ++ '/' :: r)) = _
    unfold GoStrings.split
    rw [if_neg (by simpa using hc)]
    have ihc := ih (fun hx => h (List.mem_cons_of_mem c hx))
    unfold splitSlash at ihc
    rw [ihc]
    rfl

theorem cleanLoop_plain (rooted : Bool) (stack : List (List Char))
    (segs : List (List Char)) (h : ∀ s ∈ segs, Exporter.PlainSeg s) :
    cleanLoop rooted stack segs = segs.reverse ++ stack := by
  induction segs generalizing stack with
  | nil => simp [cleanLoop]
  | cons seg rest ih =>
    obtain ⟨h1, h2, h3, h4⟩ := h seg (List.mem_cons_self seg rest)
    unfold cleanLoop
    rw [if_neg (by simp [h1, h3]), if_neg h4,
      ih (seg :: stack) (fun s hs => h s (List.mem_cons_of_mem seg hs))]
    simp

theorem goJoin_plain (b ns rt y : List Char)
    (hb : Exporter.PlainSeg b) (hns : Exporter.PlainSeg ns)
    (hrt : Exporter.PlainSeg rt) (hy : Exporter.PlainSeg y) :
    goJoin [b, ns, rt, y] = b ++ '/' :: (ns ++ '/' :: (rt ++ '/' :: y)) := by
  unfold goJoin
  rw [show List.dropWhile (fun e => e = []) [b, ns, rt, y] = [b, ns, rt, y] by
    rw [List.dropWhile_cons, if_neg (by simp [hb.1])]]
  show cleanPath (joinSegs [b, ns, rt, y]) = _
  have hjoin : joinSegs [b, ns, rt, y] = b ++ '/' :: (ns ++ '/' :: (rt ++ '/' :: y)) := rfl
  rw [hjoin]
  obtain ⟨c, cd, hbd⟩ : ∃ c cd, b = c :: cd := by
    cases b with
    | nil => exact absurd rfl hb.1
    | cons c cd => exact ⟨c, cd, rfl⟩
  have hcnot : ¬ c = '/' := fun hh => hb.2.1 (by rw [hbd, hh]; exact List.mem_cons_self _ _)
  have hne : ¬ (b ++ '/' :: (ns ++ '/' :: (rt ++ '/' :: y))) = [] := by
    rw [hbd]
    simp
  unfold cleanPath
  rw [if_neg hne,
    if_neg (by rw [hbd]; simp [isRooted, List.cons_append, hcnot]),
    splitSlash_append _ _ hb.2.1, splitSlash_append _ _ hns.2.1,
    splitSlash_append _ _ hrt.2.1, splitSlash_single _ hy.2.1,
    cleanLoop_plain false [] [b, ns, rt, y] (by
      intro s hs
      simp only [List.mem_cons, List.not_mem_nil, or_false] at hs
      rcases hs with hs | hs | hs | hs <;> subst hs <;> assumption)]
  simp only [List.append_nil, List.reverse_reverse]
  rw [hjoin, if_neg hne]

end GoPath

/-- C4 counterexample: with an empty base directory the generated path
is not the plain concatenation — `filepath.Join` drops the empty
component and cleans the path, so the leading separator is missing. -/
theorem GenerateFilePath_not_concat :
    Exporter.GenerateFilePath "" "ns" "pods" "x"
      ≠ "" ++ "/" ++ "ns" ++ "/" ++ "pods" ++ "/" ++ "x" ++ ".yaml" := by
  decide

/-- C4 (amended): `GenerateFilePath` is a pure function of its four
arguments (determinism is inherent in the embedding), and whenever
`baseDir`, `namespace` and `resourceType` are plain path segments
(non-empty, separator-free, not "." or "..") and the name is non-empty
and separator-free, the result is exactly
`{baseDir}/{namespace}/{resourceType}/{name}.yaml`. -/
theorem GenerateFilePath_eq_concat (b ns rt n : String)
    (hb : Exporter.PlainSeg b.data) (hns : Exporter.PlainSeg ns.data)
    (hrt : Exporter.PlainSeg rt.data) (hn1 : n ≠ "") (hn2 : '/' ∉ n.data) :
    Exporter.GenerateFilePath b ns rt n
      = b ++ "/" ++ ns ++ "/" ++ rt ++ "/" ++ n ++ ".yaml" := by
  have hnd : n.data ≠ [] := fun hh => hn1 (String.ext hh)
  have hyP : Exporter.PlainSeg (n.data ++ ".yaml".data) := by
    refine ⟨by simp [hnd], ?_, ?_, ?_⟩
    · intro hh
      rw [List.mem_append] at hh
      rcases hh with hh | hh
      · exact hn2 hh
      · exact absurd hh (by decide)
    · intro hh
      have hlen := congrArg List.length hh
      rw [List.length_append, show (".yaml".data).length = 5 from rfl] at hlen
      simp at hlen
    · intro hh
      have hlen := congrArg List.length hh
      rw [List.length_append, show (".yaml".data).length = 5 from rfl] at hlen
      simp at hlen
  have hgj := GoPath.goJoin_plain b.data ns.data rt.data (n.data ++ ".yaml".data)
    hb hns hrt hyP
  apply String.ext
  show GoPath.goJoin [b.data, ns.data, rt.data, (n ++ ".yaml").data]
    = (b ++ "/" ++ ns ++ "/" ++ rt ++ "/" ++ n ++ ".yaml").data
  rw [show (n ++ ".yaml").data = n.data ++ ".yaml".data from rfl, hgj,
    show (b ++ "/" ++ ns ++ "/" ++ rt ++ "/" ++ n ++ ".yaml").data
      = b.data ++ ['/'] ++ ns.data ++ ['/'] ++ rt.data ++ ['/'] ++ n.data ++ ".yaml".data
      from rfl]
  simp

/-- Witness for C4 at concrete plain components. -/
theorem GenerateFilePath_eq_concat_witness :
    Exporter.GenerateFilePath "exports" "default" "pods" "web"
      = "exports" ++ "/" ++ "default" ++ "/" ++ "pods" ++ "/" ++ "web" ++ ".yaml" :=
  GenerateFilePath_eq_concat "exports" "default" "pods" "web"
    ⟨by decide, by decide, by decide, by decide⟩
    ⟨by decide, by decide, by decide, by decide⟩
    ⟨by decide, by decide, by decide, by decide⟩
    (by decide) (by decide)
